import Mathlib

/-!
Verification of the CineLog record pipeline.

Shallow embedding of the TypeScript sources:
* `src/types.ts` — the `Movie` record, `MovieStatus`, `MediaType`;
* `src/unnamed/part_001` (the `App` component) — `levenshtein`, `fuzzyMatch`,
  add/update/delete/bulk-delete/import-merge mutations, `escapeCsv`,
  `parseCSVLine`, `sortedMovies`, pagination;
* `src/components/Stats.tsx` — the aggregator (movie/tv counts, durations,
  TV rollup map, genre histogram).

JavaScript strings are modelled as Lean `String`s (length = code points),
JavaScript numbers on the integral domains used here as `Nat`/`Int`,
absent (`undefined`) fields as `Option`, and the insertion-ordered JS
`Map`/object used by the aggregator as an association list updated in place.
-/

namespace CineLog

/-- Embeds `MovieStatus` from src/types.ts (已看 / 想看 / 弃坑 / 在看). -/
inductive MovieStatus where
  | watched
  | planning
  | dropped
  | watching
deriving DecidableEq, Repr

/-- Embeds `MediaType` from src/types.ts: `'movie' | 'tv'`. -/
inductive MediaType where
  | movie
  | tv
deriving DecidableEq, Repr

/-- The `Movie` record from src/types.ts.  Fields that are optional in the
TypeScript interface (or absent on legacy persisted records, such as
`mediaType`) are `Option`s. -/
structure Movie where
  id : String
  title : String
  year : String := ""
  country : Option String := none
  genre : String := ""
  director : Option String := none
  rating : Nat := 0
  status : MovieStatus := .watched
  review : String := ""
  posterColor : String := ""
  addedAt : Nat := 0
  lastUpdated : Nat := 0
  mediaType : Option MediaType := none
  currentEpisode : Option Nat := none
  totalEpisodes : Option Nat := none
  duration : Option Nat := none
deriving DecidableEq, Repr

/-! ### Edit-distance matcher (`levenshtein`, part_001 lines 10–27)

The source fills an `(b.length+1) × (a.length+1)` DP table with
`matrix[j][i] = min(matrix[j][i-1]+1, matrix[j-1][i]+1, matrix[j-1][i-1]+indicator)`
and returns `matrix[b.length][a.length]`; the recursive function below
computes the same minimal-edit recurrence (deletion / insertion /
substitution-or-match, in the source's order of the three `min` arguments). -/

def levenshtein : List Char → List Char → Nat
  | [], ys => ys.length
  | x :: xs, [] => (x :: xs).length
  | x :: xs, y :: ys =>
      min (levenshtein xs (y :: ys) + 1)
        (min (levenshtein (x :: xs) ys + 1)
          (levenshtein xs ys + (if x = y then 0 else 1)))
termination_by a b => a.length + b.length
decreasing_by all_goals simp_arith

/-- Embeds `levenshtein` on strings, as called by `fuzzyMatch`. -/
def levenshteinS (a b : String) : Nat :=
  levenshtein a.toList b.toList

theorem levenshtein_nil_left (b : List Char) : levenshtein [] b = b.length := by
  simp [levenshtein]

theorem levenshtein_nil_right (a : List Char) : levenshtein a [] = a.length := by
  cases a <;> simp [levenshtein]

theorem levenshtein_symm (a b : List Char) : levenshtein a b = levenshtein b a := by
  induction a generalizing b with
  | nil => cases b <;> simp [levenshtein]
  | cons x xs ih =>
    induction b with
    | nil => simp [levenshtein]
    | cons y ys ihb =>
      rw [levenshtein, levenshtein]
      rw [ih (y :: ys), ih ys, ihb]
      have hind : (if x = y then 0 else 1) = (if y = x then 0 else 1) := by
        by_cases h : x = y
        · simp [h]
        · have hyx : ¬ y = x := fun hyx => h hyx.symm
          simp [h, hyx]
      rw [hind]
      omega

theorem levenshtein_eq_zero_iff (a b : List Char) :
    levenshtein a b = 0 ↔ a = b := by
  induction a generalizing b with
  | nil => cases b <;> simp [levenshtein]
  | cons x xs ih =>
    cases b with
    | nil => simp [levenshtein]
    | cons y ys =>
      rw [levenshtein]
      constructor
      · intro h0
        have hsub : levenshtein xs ys + (if x = y then 0 else 1) = 0 := by omega
        have hxy : x = y := by
          by_cases h : x = y
          · exact h
          · simp [h] at hsub
        have hxs : xs = ys := (ih ys).mp (by omega)
        simp [hxy, hxs]
      · intro h
        cases h
        have hxs : levenshtein xs xs = 0 := (ih xs).mpr rfl
        have h1 : levenshtein xs (x :: xs) + 1 ≥ 0 := by omega
        simp [hxs]

theorem levenshtein_le_max (a b : List Char) :
    levenshtein a b ≤ max a.length b.length := by
  induction a generalizing b with
  | nil => simp [levenshtein]
  | cons x xs ih =>
    cases b with
    | nil => simp [levenshtein]
    | cons y ys =>
      rw [levenshtein]
      have h3 : levenshtein xs ys ≤ max xs.length ys.length := ih ys
      have hlen : (x :: xs).length = xs.length + 1 := rfl
      have hlen2 : (y :: ys).length = ys.length + 1 := rfl
      have hle : levenshtein xs ys + (if x = y then 0 else 1) ≤
          max xs.length ys.length + 1 := by
        by_cases h : x = y <;> simp [h] <;> omega
      simp only [hlen, hlen2]
      omega

/-! ### Regex splits

`cleanText.split(/[\s\-_：:，,。]+/)` (fuzzy word split) and
`genre.split(/[,，/、\s]+/)` (genre/country split) both split on *runs* of
separator characters (the `+` quantifier), keeping the empty pieces a
leading or trailing separator produces.  `jsSplit` reproduces that. -/

/-- The characters matched by the JavaScript regex class `\s`. -/
def jsWhitespace (c : Char) : Bool :=
  c = ' ' || c = '\t' || c = '\n' || c = '\r' || c = '\x0b' || c = '\x0c' ||
  c = '\u00A0' || c = '\u1680' || ('\u2000' ≤ c && c ≤ '\u200A') ||
  c = '\u2028' || c = '\u2029' || c = '\u202F' || c = '\u205F' ||
  c = '\u3000' || c = '\uFEFF'

/-- Separator class of the fuzzy-match word split: `[\s\-_：:，,。]`. -/
def wordSep (c : Char) : Bool :=
  jsWhitespace c || c = '-' || c = '_' || c = '：' || c = ':' ||
  c = '，' || c = ',' || c = '。'

/-- Separator class of the genre split in Stats.tsx: `[,，/、\s]`. -/
def genreSep (c : Char) : Bool :=
  c = ',' || c = '，' || c = '/' || c = '、' || jsWhitespace c

/-- The loop of `jsSplit`: accumulate the current piece in reverse;
a separator ends the piece unless the previous character was already a
separator (`prevSep`), which continues the same run. -/
def jsSplitF (sep : Char → Bool) : List Char → List Char → Bool → List String
  | [], cur, _ => [String.mk cur.reverse]
  | c :: rest, cur, prevSep =>
      if sep c then
        if prevSep then jsSplitF sep rest cur true
        else String.mk cur.reverse :: jsSplitF sep rest [] true
      else jsSplitF sep rest (c :: cur) false

/-- Embeds `text.split(/[sep]+/)`: split on maximal runs of separators, keeping
boundary empties (`"-a".split` gives `["", "a"]`, `"".split` gives `[""]`). -/
def jsSplit (sep : Char → Bool) (l : List Char) : List String :=
  jsSplitF sep l [] false

/-! ### Fuzzy text predicate (`fuzzyMatch`, part_001 lines 29–60) -/

/-- Embeds `text.includes(search)`: contiguous substring test. -/
def strIncludes (t s : String) : Bool :=
  decide (s.toList <:+: t.toList)

/-- Embeds `maxErrors` of `fuzzyMatch`: 2 errors for search terms longer than 4
characters, 1 otherwise. -/
def errorBudget (cleanSearch : String) : Nat :=
  if 4 < cleanSearch.length then 2 else 1

/-- Embeds `fuzzyMatch(text, search)` from part_001.  `text` is `string | undefined`;
both JavaScript `undefined` and the (falsy) empty string take the
`if (!text) return false` exit. -/
def fuzzyMatch (text : Option String) (search : String) : Bool :=
  if search = "" then true
  else
    match text with
    | none => false
    | some t =>
      if t = "" then false
      else
        let cleanText := t.toLower
        let cleanSearch := search.toLower
        if strIncludes cleanText cleanSearch then true
        else if cleanSearch.length < 2 then false
        else
          let maxErrors := errorBudget cleanSearch
          if Nat.dist cleanText.length cleanSearch.length ≤ maxErrors + 1 ∧
              levenshteinS cleanText cleanSearch ≤ maxErrors then true
          else
            (jsSplit wordSep cleanText.toList).any fun w =>
              if maxErrors < Nat.dist w.length cleanSearch.length then false
              else decide (levenshteinS cleanSearch w ≤ maxErrors)

/-- C6: the edit-distance function is symmetric, returns 0 iff the two
strings are identical, is bounded by the length of the longer string, and
an empty input yields the length of the other string. -/
theorem c6_levenshtein_properties (a b : String) :
    levenshteinS a b = levenshteinS b a ∧
    (levenshteinS a b = 0 ↔ a = b) ∧
    levenshteinS a b ≤ max a.length b.length ∧
    levenshteinS "" b = b.length ∧
    levenshteinS a "" = a.length := by
  refine ⟨levenshtein_symm _ _, ?_, ?_, ?_, ?_⟩
  · rw [levenshteinS, levenshtein_eq_zero_iff]
    constructor
    · intro h
      cases a; cases b; exact congrArg String.mk h
    · intro h; rw [h]
  · simpa using levenshtein_le_max a.toList b.toList
  · simpa using levenshtein_nil_left b.toList
  · simpa using levenshtein_nil_right a.toList

/-- The per-word test inside `fuzzyMatch`, spelled as a proposition. -/
theorem fuzzy_word_test (budget : Nat) (cs w : String) :
    ((if budget < Nat.dist w.length cs.length then false
      else decide (levenshteinS cs w ≤ budget)) = true) ↔
      (Nat.dist w.length cs.length ≤ budget ∧ levenshteinS cs w ≤ budget) := by
  by_cases h : budget < Nat.dist w.length cs.length
  all_goals simp [h]
  all_goals omega

/-- C5: characterization of the fuzzy predicate: true for an empty term;
false for absent text; case-folds both sides; true when the term is a
contiguous substring; otherwise false for terms shorter than 2 characters;
otherwise the error budget is 2 for terms longer than 4 characters and 1
otherwise, and the predicate holds iff the whole string passes the
edit-distance check (only attempted when the length difference is at most
budget+1) or some separator-split word within the length-difference budget
is at edit distance at most the budget. -/
theorem c5_fuzzyMatch_spec (text : Option String) (term : String) :
    fuzzyMatch text term = true ↔
      (term = "" ∨
        ∃ s, text = some s ∧ s ≠ "" ∧
          ((term.toLower.toList <:+: s.toLower.toList) ∨
            (2 ≤ term.toLower.length ∧
              ((Nat.dist s.toLower.length term.toLower.length ≤
                    errorBudget term.toLower + 1 ∧
                  levenshteinS s.toLower term.toLower ≤ errorBudget term.toLower) ∨
                ∃ w ∈ jsSplit wordSep s.toLower.toList,
                  Nat.dist w.length term.toLower.length ≤ errorBudget term.toLower ∧
                  levenshteinS term.toLower w ≤ errorBudget term.toLower)))) := by
  by_cases hterm : term = ""
  · simp [fuzzyMatch, hterm]
  cases text with
  | none => simp [fuzzyMatch, hterm]
  | some t =>
    by_cases ht : t = ""
    · simp [fuzzyMatch, hterm, ht]
    by_cases hsub : term.toLower.toList <:+: t.toLower.toList
    · simp [fuzzyMatch, hterm, ht, strIncludes, hsub]
    by_cases hlen : term.toLower.length < 2
    · have hlen2 : ¬ 2 ≤ term.toLower.length := by omega
      simp [fuzzyMatch, hterm, ht, strIncludes, hsub, hlen, hlen2]
    have hlen2 : 2 ≤ term.toLower.length := by omega
    by_cases hwhole : Nat.dist t.toLower.length term.toLower.length ≤
        errorBudget term.toLower + 1 ∧
        levenshteinS t.toLower term.toLower ≤ errorBudget term.toLower
    · simp [fuzzyMatch, hterm, ht, strIncludes, hsub, hlen, hlen2, hwhole]
    · have hsub2 : ¬ (term.toLower.data <:+: t.toLower.data) := by
        simpa [String.toList] using hsub
      simp [fuzzyMatch, hterm, ht, strIncludes, hsub, hsub2, hlen, hlen2,
        hwhole, fuzzy_word_test]

/-! ### Record-set mutations (part_001) -/

/-- The identities of a record set, in order. -/
def movieIds (l : List Movie) : List String :=
  l.map Movie.id

/-- Embeds `handleAddMovie` (lines 146–156): mint an id, default `addedAt` to now
(`movieData.addedAt || Date.now()`), stamp `lastUpdated`, prepend to the top.
The minted `crypto.randomUUID()` value is the `freshId` parameter. -/
def addMovie (data : Movie) (freshId : String) (now : Nat) (l : List Movie) :
    List Movie :=
  { data with
      id := freshId
      addedAt := if data.addedAt = 0 then now else data.addedAt
      lastUpdated := now } :: l

/-- Embeds `handleUpdateMovie` (lines 158–166): replace the fields of the record
whose id matches `data.id` in place, refreshing `lastUpdated`. -/
def updateMovie (data : Movie) (now : Nat) (l : List Movie) : List Movie :=
  l.map fun m => if m.id = data.id then { data with lastUpdated := now } else m

/-- Embeds `handleDeleteMovie` (lines 168–173): drop the record with the given id
(ids compared as strings). -/
def deleteMovie (i : String) (l : List Movie) : List Movie :=
  l.filter fun m => m.id ≠ i

/-- Embeds `handleBulkDelete` (lines 202–210): drop every selected record. -/
def bulkDelete (selected : List String) (l : List Movie) : List Movie :=
  l.filter fun m => !(selected.contains m.id)

/-- Embeds `handleFileChange` merge, lines 390–392: the candidate records whose
(string-compared) id does not already occur in the current set. -/
def importUnique (current batch : List Movie) : List Movie :=
  batch.filter fun m => !((movieIds current).contains m.id)

/-- Embeds `handleFileChange` merge, lines 394–399: prepend the unique remainder;
when every candidate is a duplicate the set is left unchanged. -/
def mergeImport (current batch : List Movie) : List Movie :=
  if (importUnique current batch).isEmpty then current
  else importUnique current batch ++ current

theorem movieIds_updateMovie (data : Movie) (now : Nat) (l : List Movie) :
    movieIds (updateMovie data now l) = movieIds l := by
  unfold movieIds updateMovie
  rw [List.map_map]
  apply List.map_congr_left
  intro m _
  by_cases h : m.id = data.id <;> simp [h]

theorem mergeImport_eq_append (current batch : List Movie) :
    mergeImport current batch = importUnique current batch ++ current := by
  by_cases he : (importUnique current batch).isEmpty
  · have : importUnique current batch = [] := by
      simpa [List.isEmpty_iff] using he
    simp [mergeImport, he, this]
  · simp [mergeImport, he]

/-- C1: identity uniqueness is preserved by every mutation of the record
set — adding a record under a freshly minted id, updating a record in
place, deleting one or many records, and merging an imported batch (whose
own ids are pairwise distinct); the import merge prepends exactly the
candidates whose string-compared id does not occur in the current set. -/
theorem c1_identity_uniqueness
    (l : List Movie) (data : Movie) (freshId : String) (now : Nat)
    (i : String) (selected : List String) (batch : List Movie)
    (h : (movieIds l).Nodup) :
    (freshId ∉ movieIds l → (movieIds (addMovie data freshId now l)).Nodup) ∧
    (movieIds (updateMovie data now l)).Nodup ∧
    (movieIds (deleteMovie i l)).Nodup ∧
    (movieIds (bulkDelete selected l)).Nodup ∧
    ((movieIds batch).Nodup → (movieIds (mergeImport l batch)).Nodup) ∧
    mergeImport l batch = importUnique l batch ++ l := by
  refine ⟨?_, ?_, ?_, ?_, ?_, mergeImport_eq_append l batch⟩
  · intro hf
    exact List.nodup_cons.mpr ⟨hf, h⟩
  · rw [movieIds_updateMovie]
    exact h
  · exact List.Nodup.sublist ((List.filter_sublist l).map Movie.id) h
  · exact List.Nodup.sublist ((List.filter_sublist l).map Movie.id) h
  · intro hb
    rw [mergeImport_eq_append]
    have hids : movieIds (importUnique l batch ++ l) =
        movieIds (importUnique l batch) ++ movieIds l := by
      simp [movieIds]
    rw [hids, List.nodup_append]
    refine ⟨List.Nodup.sublist ((List.filter_sublist batch).map Movie.id) hb,
      h, ?_⟩
    intro x hxu hxl
    rcases List.mem_map.mp hxu with ⟨m, hm, hmx⟩
    have hmem := List.mem_filter.mp hm
    have hnot : ¬ (movieIds l).contains m.id := by
      simpa using hmem.2
    exact hnot (List.elem_eq_true_of_mem (by rw [hmx]; exact hxl))

/-- C1 witness: a concrete instantiation. -/
theorem c1_identity_uniqueness_witness :
    (movieIds (addMovie { id := "x", title := "A" } "f" 5
      [{ id := "a", title := "B" }])).Nodup ∧
    (movieIds (mergeImport [{ id := "a", title := "B" }]
      [{ id := "a", title := "C" }, { id := "b", title := "D" }])).Nodup ∧
    mergeImport [{ id := "a", title := "B" }]
        [{ id := "a", title := "C" }, { id := "b", title := "D" }] =
      importUnique [{ id := "a", title := "B" }]
        [{ id := "a", title := "C" }, { id := "b", title := "D" }] ++
      [{ id := "a", title := "B" }] := by
  have h := c1_identity_uniqueness [{ id := "a", title := "B" }]
    { id := "x", title := "A" } "f" 5 "z" ["w"]
    [{ id := "a", title := "C" }, { id := "b", title := "D" }] (by decide)
  exact ⟨h.1 (by decide), h.2.2.2.2.1 (by decide), h.2.2.2.2.2⟩

/-! ### Sort comparator and direction flip (`sortedMovies`, part_001 455–478) -/

inductive SortField where
  | addedAt
  | rating
  | year
  | title
deriving DecidableEq, Repr

inductive SortDir where
  | asc
  | desc
deriving DecidableEq, Repr

/-- The longest leading digit run of `parseInt`, `none` when there is none. -/
def leadingNat (cs : List Char) : Option Nat :=
  let ds := cs.takeWhile Char.isDigit
  if ds.isEmpty then none
  else some (ds.foldl (fun a c => a * 10 + (c.toNat - 48)) 0)

/-- Embeds `parseInt(String(y)) || 0`: skip leading whitespace, optional sign,
longest digit prefix; `NaN` (no digits) falls back to 0. -/
def jsParseIntOr0 (s : String) : Int :=
  match s.toList.dropWhile jsWhitespace with
  | '-' :: rest =>
      match leadingNat rest with
      | some n => -(n : Int)
      | none => 0
  | '+' :: rest => ((leadingNat rest).getD 0 : Nat)
  | cs => ((leadingNat cs).getD 0 : Nat)

/-- The generic `valA < valB ? -1 : valA > valB ? 1 : 0` comparison. -/
def cmpNum (a b : Nat) : Int :=
  if a < b then -1 else if b < a then 1 else 0

/-- The comparator inside `sortedMovies`: `year` compares best-effort
integer parses, `title` uses the locale collator (`localeCompare` with
`zh-CN`, supplied as the external `collate` parameter), other fields
compare natively. -/
def compareMovies (collate : String → String → Int) (f : SortField)
    (a b : Movie) : Int :=
  match f with
  | .addedAt => cmpNum a.addedAt b.addedAt
  | .rating => cmpNum a.rating b.rating
  | .year => jsParseIntOr0 a.year - jsParseIntOr0 b.year
  | .title => collate a.title b.title

/-- Embeds `sortedMovies`: stable-sort ascending with the comparator, then reverse
the whole sequence when the direction is descending. -/
def sortedMovies (collate : String → String → Int) (f : SortField)
    (dir : SortDir) (l : List Movie) : List Movie :=
  let data := l.mergeSort fun a b => compareMovies collate f a b ≤ 0
  match dir with
  | .asc => data
  | .desc => data.reverse

/-- C4: for every record list and every sort key (under any locale
collator), the descending sort is the exact reverse of the ascending sort
of the same list — equality of lists, so the relative order of records
that compare equal is preserved, because the direction flip reverses the
ascending-sorted sequence instead of negating the comparator. -/
theorem c4_desc_is_reversed_asc (collate : String → String → Int)
    (f : SortField) (l : List Movie) :
    sortedMovies collate f .desc l = (sortedMovies collate f .asc l).reverse :=
  rfl

/-! ### Paginator (part_001 481–491) -/

/-- Embeds `sortedMovies.slice(indexOfFirstItem, indexOfLastItem)` with
`indexOfFirstItem = (page-1)*size` and `indexOfLastItem = page*size`
(the reachable current page is always at least 1). -/
def pageSlice (l : List Movie) (page size : Nat) : List Movie :=
  (l.drop ((page - 1) * size)).take size

/-- Embeds `Math.ceil(sortedMovies.length / itemsPerPage)` on naturals. -/
def totalPages (n size : Nat) : Nat :=
  (n + size - 1) / size

/-- Embeds `handlePageChange`: only requests inside `[1, totalPages]` change the
current page. -/
def handlePageChange (current requested total : Nat) : Nat :=
  if 1 ≤ requested ∧ requested ≤ total then requested else current

theorem pages_join_take (l : List Movie) (s : Nat) (k : Nat) :
    ((List.range k).map (fun i => pageSlice l (i + 1) s)).flatten =
      l.take (k * s) := by
  induction k with
  | zero => simp
  | succ k ih =>
    rw [List.range_succ, List.map_append, List.flatten_append, ih]
    have hslice : pageSlice l (k + 1) s = (l.drop (k * s)).take s := by
      simp [pageSlice]
    have : (k + 1) * s = k * s + s := by ring
    rw [this, List.take_add]
    simp [hslice]

theorem totalPages_galois (n s : Nat) (hs : 0 < s) (k : Nat) :
    n ≤ k * s ↔ totalPages n s ≤ k := by
  unfold totalPages
  rw [Nat.div_le_iff_le_mul_add_pred hs, Nat.mul_comm]
  omega

/-- C7: page `p` of a sequence under page size `s` is the contiguous slice
`[(p-1)*s, p*s)` clipped to the bounds, the reported page count is
`ceil(n/s)` (characterized as the least `k` with `n ≤ k*s`), concatenating
pages `1..totalPages` in order reconstructs the sequence exactly, and a
page request outside `[1, totalPages]` (page 0, page `totalPages+1`)
leaves the current page unchanged. -/
theorem c7_pagination (l : List Movie) (s : Nat) (hs : 0 < s) :
    (∀ p, 1 ≤ p → pageSlice l p s = (l.take (p * s)).drop ((p - 1) * s)) ∧
    (∀ k, l.length ≤ k * s ↔ totalPages l.length s ≤ k) ∧
    ((List.range (totalPages l.length s)).map
        (fun i => pageSlice l (i + 1) s)).flatten = l ∧
    (∀ current p, (p < 1 ∨ totalPages l.length s < p) →
      handlePageChange current p (totalPages l.length s) = current) := by
  refine ⟨?_, fun k => totalPages_galois l.length s hs k, ?_, ?_⟩
  · intro p hp
    have hmul : p * s = (p - 1) * s + s := by
      cases p with
      | zero => omega
      | succ q => simp [Nat.succ_sub_one, Nat.succ_mul]
    have hdiff : p * s - (p - 1) * s = s := by omega
    rw [List.drop_take, hdiff, pageSlice]
  · rw [pages_join_take]
    apply List.take_of_length_le
    exact (totalPages_galois l.length s hs (totalPages l.length s)).mpr le_rfl
  · intro current p hp
    unfold handlePageChange
    have : ¬ (1 ≤ p ∧ p ≤ totalPages l.length s) := by omega
    simp [this]

/-- C7 witness: three records, page size 2. -/
theorem c7_pagination_witness :
    ((List.range (totalPages (movieIds [{ id := "a", title := "A" },
        { id := "b", title := "B" }, { id := "c", title := "C" }]).length 2)).map
      (fun i => pageSlice [{ id := "a", title := "A" },
        { id := "b", title := "B" }, { id := "c", title := "C" }] (i + 1) 2)).flatten =
      [{ id := "a", title := "A" }, { id := "b", title := "B" },
        { id := "c", title := "C" }] ∧
    handlePageChange 1 0 (totalPages 3 2) = 1 := by
  have h := c7_pagination [{ id := "a", title := "A" },
    { id := "b", title := "B" }, { id := "c", title := "C" }] 2 (by decide)
  refine ⟨?_, h.2.2.2 1 0 (by simp [totalPages])⟩
  have := h.2.2.1
  simpa [movieIds] using this

/-- C8: re-importing the structural (JSON) dump of the current record set
(`JSON.parse` of `JSON.stringify(movies)` yields the same record array)
produces zero unique candidates — every row is dropped as a duplicate by
identity — and the record set is left unchanged. -/
theorem c8_roundtrip_no_new_records (l : List Movie) :
    importUnique l l = [] ∧ mergeImport l l = l := by
  have h1 : importUnique l l = [] := by
    apply List.filter_eq_nil_iff.mpr
    intro m hm
    simp [movieIds]
    exact ⟨m, hm, rfl⟩
  exact ⟨h1, by simp [mergeImport, h1]⟩

/-! ### CSV field codec (part_001: `escapeCsv` 216–223, `parseCSVLine` 284–306) -/

/-- Embeds `stringValue.replace(/"/g, '""')`: double every quote character. -/
def escQuotes : List Char → List Char
  | [] => []
  | c :: rest =>
      if c = '"' then '"' :: '"' :: escQuotes rest else c :: escQuotes rest

/-- Embeds `escapeCsv`: falsy (absent or empty) fields become `''`; a field
containing the delimiter, a quote or a newline is quote-wrapped with its
internal quotes doubled; any other field passes through unchanged. -/
def escapeCsv (s : String) : String :=
  if s = "" then ""
  else if s.toList.contains ',' || s.toList.contains '"' ||
      s.toList.contains '\n' then
    String.mk ('"' :: (escQuotes s.toList ++ ['"']))
  else s

/-- The loop of `parseCSVLine` over the remaining characters, with the
loop state (`current` accumulated in reverse, `inQuote`); a doubled quote
inside a quoted field is read through the one-character lookahead
`text[i + 1] === '"'` followed by `i++` (here: `head?` / `tail`). -/
def parseCSVAux : List Char → List Char → Bool → List String
  | [], cur, _ => [String.mk cur.reverse]
  | c :: rest, cur, inQ =>
      if c = '"' then
        if inQ then
          if rest.head? = some '"' then parseCSVAux rest.tail ('"' :: cur) true
          else parseCSVAux rest cur false
        else parseCSVAux rest cur true
      else if c = ',' && !inQ then
        String.mk cur.reverse :: parseCSVAux rest [] inQ
      else parseCSVAux rest (c :: cur) inQ
termination_by l _ _ => l.length
decreasing_by all_goals (simp [List.length_tail] <;> omega)

/-- Embeds `parseCSVLine(text)`: `current`/`inQuote` start empty and false, and
the final `current` is pushed after the loop. -/
def parseCSVLine (s : String) : List String :=
  parseCSVAux s.toList [] false

/-- Embeds `[...].join(',')` over one row's escaped cells. -/
def commaJoin : List String → String
  | [] => ""
  | [f] => f
  | f :: fs => f ++ "," ++ commaJoin fs

theorem parseCSVAux_nil (cur : List Char) (inQ : Bool) :
    parseCSVAux [] cur inQ = [String.mk cur.reverse] := by
  simp [parseCSVAux]

theorem parseCSVAux_quote_open (rest cur : List Char) :
    parseCSVAux ('"' :: rest) cur false = parseCSVAux rest cur true := by
  simp [parseCSVAux]

theorem parseCSVAux_quote_lit (rest cur : List Char) :
    parseCSVAux ('"' :: '"' :: rest) cur true =
      parseCSVAux rest ('"' :: cur) true := by
  simp [parseCSVAux]

theorem parseCSVAux_quote_close (rest cur : List Char)
    (h : rest.head? ≠ some '"') :
    parseCSVAux ('"' :: rest) cur true = parseCSVAux rest cur false := by
  simp [parseCSVAux, h]

theorem parseCSVAux_comma (rest cur : List Char) :
    parseCSVAux (',' :: rest) cur false =
      String.mk cur.reverse :: parseCSVAux rest [] false := by
  simp [parseCSVAux]

theorem parseCSVAux_other (c : Char) (rest cur : List Char) (inQ : Bool)
    (hc : c ≠ '"') (h2 : ¬ (c = ',' ∧ inQ = false)) :
    parseCSVAux (c :: rest) cur inQ = parseCSVAux rest (c :: cur) inQ := by
  simp [parseCSVAux, hc]
  intro h3
  cases inQ
  · exact absurd ⟨h3, rfl⟩ h2
  · simp

theorem parse_quoted_body (f : List Char) (rest : List Char) (cur : List Char)
    (hrest : rest.head? ≠ some '"') :
    parseCSVAux (escQuotes f ++ '"' :: rest) cur true =
      parseCSVAux rest (f.reverse ++ cur) false := by
  induction f generalizing cur with
  | nil =>
    simp only [escQuotes, List.nil_append, List.reverse_nil]
    exact parseCSVAux_quote_close rest cur hrest
  | cons c f ih =>
    by_cases hc : c = '"'
    · subst hc
      have hesc : escQuotes ('"' :: f) = '"' :: '"' :: escQuotes f := by
        simp [escQuotes]
      rw [hesc, List.cons_append, List.cons_append,
        parseCSVAux_quote_lit (escQuotes f ++ '"' :: rest) cur,
        ih ('"' :: cur)]
      simp
    · have hesc : escQuotes (c :: f) = c :: escQuotes f := by
        simp [escQuotes, hc]
      rw [hesc, List.cons_append,
        parseCSVAux_other c (escQuotes f ++ '"' :: rest) cur true hc
          (by simp), ih (c :: cur)]
      simp

theorem parse_raw_field (f : List Char) (rest : List Char) (cur : List Char)
    (hf : ∀ c ∈ f, c ≠ ',' ∧ c ≠ '"') :
    parseCSVAux (f ++ rest) cur false =
      parseCSVAux rest (f.reverse ++ cur) false := by
  induction f generalizing cur with
  | nil => simp
  | cons c f ih =>
    have hc := hf c (by simp)
    rw [List.cons_append,
      parseCSVAux_other c (f ++ rest) cur false hc.2
        (fun h => hc.1 h.1),
      ih (c :: cur) (fun d hd => hf d (by simp [hd]))]
    simp

theorem string_mk_toList (s : String) : String.mk s.toList = s := by
  cases s
  rfl

theorem toList_append (s t : String) :
    (s ++ t).toList = s.toList ++ t.toList :=
  String.data_append s t

theorem parse_escaped_field (f : String) (rest : List Char)
    (hrest : rest.head? ≠ some '"') :
    parseCSVAux ((escapeCsv f).toList ++ rest) [] false =
      parseCSVAux rest f.toList.reverse false := by
  unfold escapeCsv
  by_cases hemp : f = ""
  · subst hemp
    simp
  · simp only [if_neg hemp]
    by_cases hq : f.toList.contains ',' || f.toList.contains '"' ||
        f.toList.contains '\n'
    · simp only [if_pos hq]
      have hlist : (String.mk ('"' :: (escQuotes f.toList ++ ['"']))).toList ++
          rest = '"' :: (escQuotes f.toList ++ '"' :: rest) := by
        show ('"' :: (escQuotes f.toList ++ ['"'])) ++ rest = _
        simp
      rw [hlist, parseCSVAux_quote_open _ [],
        parse_quoted_body f.toList rest [] hrest]
      simp
    · simp only [if_neg hq]
      have hfree : ∀ c ∈ f.toList, c ≠ ',' ∧ c ≠ '"' := by
        intro c hcm
        simp only [Bool.or_eq_true, not_or] at hq
        constructor
        · intro hcc
          subst hcc
          exact absurd (by simpa using List.elem_eq_true_of_mem hcm)
            (by simpa using hq.1.1)
        · intro hcc
          subst hcc
          exact absurd (by simpa using List.elem_eq_true_of_mem hcm)
            (by simpa using hq.1.2)
      rw [parse_raw_field f.toList rest [] hfree]
      simp

/-- C9 counterexample: on the empty field list the escape/join/parse
round trip returns `[""]`, not `[]` — a parsed line always has at least
one cell, so the round trip is not the identity at the empty list. -/
theorem c9_csv_roundtrip_counterexample :
    parseCSVLine (commaJoin (([] : List String).map escapeCsv)) = [""] ∧
      ([""] : List String) ≠ [] := by
  constructor
  · show parseCSVAux [] [] false = [""]
    rw [parseCSVAux_nil]
    rfl
  · simp

/-- C9 (amended): for every nonempty finite list of field strings none of
which contains a newline, escaping each field (quote-wrapping with
internal quotes doubled whenever the field contains the delimiter, a
quote, or a newline), joining with commas, and parsing the resulting line
with the quoted-field-aware row parser recovers exactly the original
fields (an absent/empty field as the empty string). -/
theorem c9_csv_roundtrip (fs : List String) (hne : fs ≠ [])
    (hnl : ∀ f ∈ fs, ¬ (f.toList.contains '\n' = true)) :
    parseCSVLine (commaJoin (fs.map escapeCsv)) = fs := by
  clear hnl  -- the parser needs no newline-freedom; the claim assumes it
  induction fs with
  | nil => exact absurd rfl hne
  | cons f fs ih =>
    cases fs with
    | nil =>
      show parseCSVAux (commaJoin [escapeCsv f]).toList [] false = [f]
      have h1 : (commaJoin [escapeCsv f]).toList =
          (escapeCsv f).toList ++ [] := by
        simp [commaJoin]
      rw [h1, parse_escaped_field f [] (by simp), parseCSVAux_nil]
      simp [string_mk_toList]
    | cons f2 fs2 =>
      show parseCSVAux (commaJoin ((f :: f2 :: fs2).map escapeCsv)).toList
        [] false = f :: f2 :: fs2
      have h1 : (commaJoin ((f :: f2 :: fs2).map escapeCsv)).toList =
          (escapeCsv f).toList ++
            ',' :: (commaJoin ((f2 :: fs2).map escapeCsv)).toList := by
        show (escapeCsv f ++ "," ++
          commaJoin ((f2 :: fs2).map escapeCsv)).toList = _
        rw [toList_append, toList_append]
        simp
      rw [h1, parse_escaped_field f _ (by simp),
        parseCSVAux_comma _ f.toList.reverse]
      have hrec := ih (by simp)
      rw [show parseCSVAux
          (commaJoin ((f2 :: fs2).map escapeCsv)).toList [] false =
          parseCSVLine (commaJoin ((f2 :: fs2).map escapeCsv)) from rfl,
        hrec]
      simp [string_mk_toList]

/-- C9 witness: a concrete three-field row with delimiter, quote and empty
cells. -/
theorem c9_csv_roundtrip_witness :
    parseCSVLine (commaJoin (["a,b", "", "c\"d"].map escapeCsv)) =
      ["a,b", "", "c\"d"] :=
  c9_csv_roundtrip ["a,b", "", "c\"d"] (by simp) (by decide)

/-! ### Aggregator (`Stats.tsx`, the `useMemo` block at lines 68–201)

The aggregator receives the already time-frame-filtered record list.  The
insertion-ordered JS `Map` (`tvCalcMap`) and plain object (`genreCounts`)
are modelled as association lists whose `set` updates an existing key in
place and appends a fresh key at the end, exactly the JS iteration
order. -/

/-- JavaScript `String.prototype.trim` (structural, over the `\s` set). -/
def jsTrim (s : String) : String :=
  String.mk (((s.toList.dropWhile jsWhitespace).reverse.dropWhile
    jsWhitespace).reverse)

/-- Embeds `m.title.trim()`. -/
def trimTitle (m : Movie) : String :=
  jsTrim m.title

/-- Embeds `m.currentEpisode || 0`. -/
def epOf (m : Movie) : Nat :=
  m.currentEpisode.getD 0

/-- Embeds `m.duration || 0`. -/
def durOf (m : Movie) : Nat :=
  m.duration.getD 0

/-- Embeds `!m.mediaType || m.mediaType === 'movie'` (Stats.tsx lines 98 and 102):
a record with an absent media kind is classified as a movie. -/
def isMovieKind (m : Movie) : Bool :=
  m.mediaType = none || m.mediaType = some MediaType.movie

/-- Embeds `filteredMovies.filter(m => m.mediaType === 'tv')` (line 106). -/
def tvEntries (es : List Movie) : List Movie :=
  es.filter fun m => m.mediaType = some MediaType.tv

/-- Line 98: the movie count. -/
def movieCount (es : List Movie) : Nat :=
  (es.filter isMovieKind).length

/-- Lines 101–103: summed movie minutes. -/
def movieDuration (es : List Movie) : Nat :=
  ((es.filter isMovieKind).map durOf).sum

/-- JS `Map.get` on the insertion-ordered association list. -/
def alistGet {β : Type} (k : String) : List (String × β) → Option β
  | [] => none
  | (q, v) :: rest => if q = k then some v else alistGet k rest

/-- JS `Map.set`: replace the value in place when the key is present,
append a fresh entry at the end otherwise. -/
def alistUpdate {β : Type} (k : String) (f : Option β → β) :
    List (String × β) → List (String × β)
  | [] => [(k, f none)]
  | (q, v) :: rest =>
      if q = k then (q, f (some v)) :: rest
      else (q, v) :: alistUpdate k f rest

/-- The update applied to a title's `{maxEp, duration}` cell by one entry
(lines 121–126): `Math.max` of the episodes, and `dur || existing.duration`
for the per-episode duration. -/
def tvPair (p : Nat × Nat) (m : Movie) : Nat × Nat :=
  (max p.1 (epOf m), if durOf m ≠ 0 then durOf m else p.2)

/-- One step of the `tvEntries.forEach` building `tvCalcMap`
(lines 116–127); a missing key reads as `{maxEp: 0, duration: 0}`. -/
def tvStep (acc : List (String × (Nat × Nat))) (m : Movie) :
    List (String × (Nat × Nat)) :=
  alistUpdate (trimTitle m) (fun o => tvPair (o.getD (0, 0)) m) acc

/-- Embeds `tvCalcMap` (line 114). -/
def tvCalcMap (es : List Movie) : List (String × (Nat × Nat)) :=
  (tvEntries es).foldl tvStep []

/-- Line 129: total episodes watched over the rollup values. -/
def totalEpisodesWatched (es : List Movie) : Nat :=
  ((tvCalcMap es).map (fun p => p.2.1)).sum

/-- Line 130: `maxEp * duration` summed over the rollup values. -/
def tvDuration (es : List Movie) : Nat :=
  ((tvCalcMap es).map (fun p => p.2.1 * p.2.2)).sum

/-- Lines 109–110: `new Set(tvEntries.map(m => m.title.trim())).size`. -/
def tvCount (es : List Movie) : Nat :=
  ((tvEntries es).map trimTitle).dedup.length

/-- Line 133: `movieDuration + tvDuration`. -/
def totalMinutes (es : List Movie) : Nat :=
  movieDuration es + tvDuration es

/-- The entries of the filtered set belonging to one trimmed series title. -/
def seriesEntries (t : String) (es : List Movie) : List Movie :=
  (tvEntries es).filter fun m => trimTitle m = t

/-- The maximum current-episode value across a title's entries. -/
def maxEpFor (t : String) (es : List Movie) : Nat :=
  ((seriesEntries t es).map epOf).foldl max 0

/-- The most recently supplied non-zero duration among a title's entries
(later entries override earlier ones; zero/absent durations are ignored). -/
def lastDurFor (t : String) (es : List Movie) : Nat :=
  ((seriesEntries t es).map durOf).foldl (fun a d => if d ≠ 0 then d else a) 0

/-- Line 186: one record's genre tokens — split on the separator class,
then `filter(g => g.trim().length > 0)`. -/
def recordGenres (m : Movie) : List String :=
  (jsSplit genreSep m.genre.toList).filter fun g => 0 < (jsTrim g).length

/-- Embeds `genreCounts[g] = (genreCounts[g] || 0) + 1`. -/
def bump (acc : List (String × Nat)) (k : String) : List (String × Nat) :=
  alistUpdate k (fun o => o.getD 0 + 1) acc

/-- One record's contribution to the genre histogram (lines 180–190):
a record lacking a genre counts under the explicit 未知 (unknown)
bucket, otherwise each split token bumps its own bucket. -/
def genreStep (acc : List (String × Nat)) (m : Movie) : List (String × Nat) :=
  if m.genre = "" then bump acc "未知"
  else (recordGenres m).foldl bump acc

/-- The genre histogram over the filtered set (lines 179–190). -/
def genreCounts (es : List Movie) : List (String × Nat) :=
  es.foldl genreStep []

/-- Lines 192–195: buckets sorted descending by count
(`(a, b) => b.value - a.value`, a stable sort) and truncated to the
top 8. -/
def genreData (es : List Movie) : List (String × Nat) :=
  ((genreCounts es).mergeSort fun a b => b.2 ≤ a.2).take 8

/-- The bucket names one record feeds: 未知 when the genre is absent,
its split tokens otherwise. -/
def recordTokens (m : Movie) : List String :=
  if m.genre = "" then ["未知"] else recordGenres m

/-- A bucket's current count (`genreCounts[g] || 0`). -/
def countOf (t : String) (acc : List (String × Nat)) : Nat :=
  (alistGet t acc).getD 0

theorem alistGet_update {β : Type} (k t : String) (f : Option β → β)
    (m : List (String × β)) :
    alistGet t (alistUpdate k f m) =
      if k = t then some (f (alistGet k m)) else alistGet t m := by
  induction m with
  | nil => by_cases h : k = t <;> simp [alistUpdate, alistGet, h]
  | cons e rest ih =>
    obtain ⟨q, v⟩ := e
    by_cases hq : q = k
    · subst hq
      by_cases ht : q = t <;> simp [alistUpdate, alistGet, ht]
    · by_cases ht : q = t
      · subst ht
        have hkt : ¬ k = q := fun h => hq h.symm
        simp [alistUpdate, alistGet, hq, hkt]
      · simp [alistUpdate, alistGet, hq, ht, ih]

theorem alistUpdate_keys_mem {β : Type} (k t : String) (f : Option β → β)
    (m : List (String × β)) :
    t ∈ (alistUpdate k f m).map Prod.fst ↔
      t ∈ m.map Prod.fst ∨ t = k := by
  induction m with
  | nil => simp [alistUpdate, eq_comm]
  | cons e rest ih =>
    obtain ⟨q, v⟩ := e
    by_cases hq : q = k
    · subst hq
      simp [alistUpdate]
      tauto
    · simp [alistUpdate, hq, ih]
      tauto

theorem alistUpdate_keys_nodup {β : Type} (k : String) (f : Option β → β)
    (m : List (String × β)) (h : (m.map Prod.fst).Nodup) :
    ((alistUpdate k f m).map Prod.fst).Nodup := by
  induction m with
  | nil => simp [alistUpdate]
  | cons e rest ih =>
    obtain ⟨q, v⟩ := e
    rw [List.map_cons, List.nodup_cons] at h
    by_cases hq : q = k
    · subst hq
      simpa [alistUpdate] using h
    · rw [show alistUpdate k f ((q, v) :: rest) =
        (q, v) :: alistUpdate k f rest by simp [alistUpdate, hq]]
      rw [List.map_cons, List.nodup_cons]
      refine ⟨?_, ih h.2⟩
      rw [alistUpdate_keys_mem]
      rintro (hmem | hqk)
      · exact h.1 hmem
      · exact hq hqk

theorem alist_sum_over_keys {β : Type} (g : β → Nat) (d : β)
    (m : List (String × β)) (h : (m.map Prod.fst).Nodup) :
    (m.map (fun p => g p.2)).sum =
      ((m.map Prod.fst).map (fun k => g ((alistGet k m).getD d))).sum := by
  induction m with
  | nil => simp
  | cons e rest ih =>
    obtain ⟨q, v⟩ := e
    rw [List.map_cons, List.nodup_cons] at h
    rw [List.map_cons, List.map_cons, List.map_cons, List.sum_cons,
      List.sum_cons, ih h.2]
    have hhead : g ((alistGet q ((q, v) :: rest)).getD d) = g v := by
      simp [alistGet]
    have htail : (rest.map Prod.fst).map
        (fun k => g ((alistGet k ((q, v) :: rest)).getD d)) =
        (rest.map Prod.fst).map (fun k => g ((alistGet k rest).getD d)) := by
      apply List.map_congr_left
      intro k hk
      have hne : ¬ q = k := fun hqk => h.1 (hqk ▸ hk)
      simp [alistGet, hne]
    rw [hhead, htail]

theorem tvfold_get (es : List Movie) (t : String) :
    ∀ acc, alistGet t (es.foldl tvStep acc) =
      es.foldl
        (fun o m => if trimTitle m = t then some (tvPair (o.getD (0, 0)) m)
          else o)
        (alistGet t acc) := by
  induction es with
  | nil => intro acc; rfl
  | cons m es ih =>
    intro acc
    rw [List.foldl_cons, List.foldl_cons, ih]
    congr 1
    rw [tvStep, alistGet_update]
    by_cases h : trimTitle m = t <;> simp [h]

theorem optfold_getD (t : String) (es : List Movie) :
    ∀ o : Option (Nat × Nat),
      (es.foldl
        (fun o m => if trimTitle m = t then some (tvPair (o.getD (0, 0)) m)
          else o) o).getD (0, 0) =
      (es.filter (fun m => trimTitle m = t)).foldl tvPair (o.getD (0, 0)) := by
  induction es with
  | nil => intro o; rfl
  | cons m es ih =>
    intro o
    by_cases h : trimTitle m = t
    · rw [List.foldl_cons, if_pos h, ih (some (tvPair (o.getD (0, 0)) m)),
        List.filter_cons_of_pos (by simpa using h), List.foldl_cons]
      simp
    · rw [List.foldl_cons, if_neg h,
        List.filter_cons_of_neg (by simpa using h), ih]

theorem foldl_tvPair_split (l : List Movie) (p : Nat × Nat) :
    l.foldl tvPair p =
      ((l.map epOf).foldl max p.1,
        (l.map durOf).foldl (fun a d => if d ≠ 0 then d else a) p.2) := by
  induction l generalizing p with
  | nil => rfl
  | cons m l ih =>
    rw [List.foldl_cons, List.map_cons, List.map_cons, List.foldl_cons,
      List.foldl_cons, ih (tvPair p m)]
    rfl

theorem tv_rollup_lookup (es : List Movie) (t : String) :
    (alistGet t (tvCalcMap es)).getD (0, 0) =
      (maxEpFor t es, lastDurFor t es) := by
  have h := optfold_getD t (tvEntries es) none
  rw [tvCalcMap, tvfold_get (tvEntries es) t [],
    show alistGet t ([] : List (String × (Nat × Nat))) = none from rfl, h,
    foldl_tvPair_split]
  rfl

theorem tvfold_keys_mem (es : List Movie) (t : String) :
    ∀ acc, (t ∈ (es.foldl tvStep acc).map Prod.fst ↔
      t ∈ acc.map Prod.fst ∨ t ∈ es.map trimTitle) := by
  induction es with
  | nil => intro acc; simp
  | cons m es ih =>
    intro acc
    rw [List.foldl_cons, ih (tvStep acc m), tvStep, alistUpdate_keys_mem,
      List.map_cons]
    simp only [List.mem_cons]
    tauto

theorem tvfold_keys_nodup (es : List Movie) :
    ∀ acc, (acc.map Prod.fst).Nodup →
      ((es.foldl tvStep acc).map Prod.fst).Nodup := by
  induction es with
  | nil => intro acc h; exact h
  | cons m es ih =>
    intro acc h
    rw [List.foldl_cons]
    exact ih _ (alistUpdate_keys_nodup _ _ _ h)

theorem tv_duration_by_title (es : List Movie) :
    tvDuration es =
      (((tvEntries es).map trimTitle).dedup.map
        (fun t => maxEpFor t es * lastDurFor t es)).sum := by
  have hnd : ((tvCalcMap es).map Prod.fst).Nodup :=
    tvfold_keys_nodup (tvEntries es) [] (by simp)
  rw [tvDuration,
    alist_sum_over_keys (fun p => p.1 * p.2) (0, 0) (tvCalcMap es) hnd]
  have hvals : ((tvCalcMap es).map Prod.fst).map
      (fun k => (fun p : Nat × Nat => p.1 * p.2)
        ((alistGet k (tvCalcMap es)).getD (0, 0))) =
      ((tvCalcMap es).map Prod.fst).map
        (fun t => maxEpFor t es * lastDurFor t es) := by
    apply List.map_congr_left
    intro t _
    rw [tv_rollup_lookup]
  rw [hvals]
  have hperm : (((tvCalcMap es).map Prod.fst).map
      (fun t => maxEpFor t es * lastDurFor t es)).Perm
      ((((tvEntries es).map trimTitle).dedup).map
        (fun t => maxEpFor t es * lastDurFor t es)) := by
    apply List.Perm.map
    apply List.perm_of_nodup_nodup_toFinset_eq hnd
      (List.nodup_dedup ((tvEntries es).map trimTitle))
    ext x
    simp only [List.mem_toFinset, List.mem_dedup, tvCalcMap]
    rw [tvfold_keys_mem (tvEntries es) x []]
    simp
  exact hperm.sum_eq

/-- Scenario record 1 of C2 (`{id:"1", tv, "Foo", currentEpisode 5,
duration 40}`). -/
def exTv1 : Movie :=
  { id := "1", title := "Foo", mediaType := some .tv,
    currentEpisode := some 5, duration := some 40 }

/-- Scenario record 2 of C2 (`{id:"2", tv, "Foo", currentEpisode 8,
duration 40}`). -/
def exTv2 : Movie :=
  { id := "2", title := "Foo", mediaType := some .tv,
    currentEpisode := some 8, duration := some 40 }

/-- C2: for every filtered record set, a series title's rollup cell holds
the maximum current-episode value across the title's entries and its most
recently supplied non-zero per-episode duration; the total-minutes figure
is the summed movie durations plus, over the distinct trimmed series
titles, max-episode times per-episode duration; and for two TV records
titled "Foo" with current episodes 5 and 8 and duration 40 each, the
aggregator reports series count 1, episodes watched 8, and a series
duration contribution of 320 minutes. -/
theorem c2_tv_rollup :
    (∀ es t, (alistGet t (tvCalcMap es)).getD (0, 0) =
      (maxEpFor t es, lastDurFor t es)) ∧
    (∀ es, totalMinutes es = movieDuration es +
      (((tvEntries es).map trimTitle).dedup.map
        (fun t => maxEpFor t es * lastDurFor t es)).sum) ∧
    (tvCount [exTv1, exTv2] = 1 ∧
      totalEpisodesWatched [exTv1, exTv2] = 8 ∧
      tvDuration [exTv1, exTv2] = 320) := by
  refine ⟨tv_rollup_lookup, ?_, by decide, by decide, by decide⟩
  intro es
  rw [totalMinutes, tv_duration_by_title]

theorem countOf_bump (t k : String) (acc : List (String × Nat)) :
    countOf t (bump acc k) = countOf t acc + (if k = t then 1 else 0) := by
  rw [countOf, bump, alistGet_update]
  by_cases h : k = t <;> simp [h, countOf]

theorem countOf_foldl_bump (t : String) (ts : List String) :
    ∀ acc, countOf t (ts.foldl bump acc) = countOf t acc + ts.count t := by
  induction ts with
  | nil => intro acc; simp
  | cons k ts ih =>
    intro acc
    rw [List.foldl_cons, ih (bump acc k), countOf_bump, List.count_cons]
    by_cases h : k = t <;> simp [h] <;> omega

theorem countOf_genreStep (t : String) (m : Movie)
    (acc : List (String × Nat)) :
    countOf t (genreStep acc m) = countOf t acc + (recordTokens m).count t := by
  by_cases h : m.genre = ""
  · rw [genreStep, if_pos h, countOf_bump, recordTokens, if_pos h]
    by_cases hu : ("未知" : String) = t <;>
      simp [hu, List.count_cons, List.count_nil]
  · rw [genreStep, if_neg h, countOf_foldl_bump, recordTokens, if_neg h]

theorem countOf_genreCounts_aux (t : String) (es : List Movie) :
    ∀ acc, countOf t (es.foldl genreStep acc) =
      countOf t acc + (es.map (fun m => (recordTokens m).count t)).sum := by
  induction es with
  | nil => intro acc; simp
  | cons m es ih =>
    intro acc
    rw [List.foldl_cons, ih (genreStep acc m), countOf_genreStep,
      List.map_cons, List.sum_cons]
    omega

/-- Descending-by-count order used for the histogram. -/
theorem genreData_sorted (es : List Movie) :
    (genreData es).Pairwise (fun a b : String × Nat => b.2 ≤ a.2) := by
  have hsorted := @List.sorted_mergeSort (String × Nat)
    (fun a b : String × Nat => decide (b.2 ≤ a.2))
    (fun a b c hab hbc => by
      simp only [decide_eq_true_eq] at *
      omega)
    (fun a b => by
      simp only [Bool.or_eq_true, decide_eq_true_eq]
      exact (Nat.le_total a.2 b.2).symm)
    (genreCounts es)
  have hsorted2 : ((genreCounts es).mergeSort
      fun a b : String × Nat => b.2 ≤ a.2).Pairwise
      (fun a b : String × Nat => b.2 ≤ a.2) :=
    hsorted.imp fun h => by simpa using h
  exact List.Pairwise.sublist (List.take_sublist 8 _) hsorted2

/-- The C3 scenario record: genre field `科幻,剧情`. -/
def exGenre : Movie :=
  { id := "g", title := "G", genre := "科幻,剧情" }

/-- C3: each record's genre field splits on the fixed separator set into
tokens and every token occurrence of a record bumps its own bucket (a
record lacking a genre bumps the explicit 未知 bucket), so a bucket's
count is the total number of token occurrences over the record set; the
displayed histogram is sorted descending by count and truncated to the
top 8; a record with genre `科幻,剧情` increments 科幻 and 剧情 once
each. -/
theorem c3_genre_histogram :
    (∀ es t, countOf t (genreCounts es) =
      (es.map (fun m => (recordTokens m).count t)).sum) ∧
    (∀ es, (genreData es).Pairwise (fun a b : String × Nat => b.2 ≤ a.2) ∧
      (genreData es).length ≤ 8) ∧
    (recordTokens exGenre = ["科幻", "剧情"] ∧
      countOf "科幻" (genreCounts [exGenre]) = 1 ∧
      countOf "剧情" (genreCounts [exGenre]) = 1) := by
  refine ⟨?_, ?_, by decide, by decide, by decide⟩
  · intro es t
    rw [genreCounts, countOf_genreCounts_aux t es []]
    simp [countOf, alistGet]
  · intro es
    refine ⟨genreData_sorted es, ?_⟩
    rw [genreData]
    simp [List.length_take]

/-- The C10 legacy record: persisted before `mediaType` existed. -/
def exLegacy : Movie :=
  { id := "L", title := "Old", duration := some 100 }

/-- C10 (implicit): a record whose media-kind field is absent is counted
as a movie by the aggregator — included in the movie count and its
duration summed into the movie minutes — while the TV rollups
(`tvEntries`, series count, episodes watched, series duration) ignore it
entirely. -/
theorem c10_absent_mediaType_counts_as_movie (es : List Movie) (m : Movie)
    (h : m.mediaType = none) :
    movieCount (m :: es) = movieCount es + 1 ∧
    movieDuration (m :: es) = durOf m + movieDuration es ∧
    tvEntries (m :: es) = tvEntries es ∧
    tvCount (m :: es) = tvCount es ∧
    totalEpisodesWatched (m :: es) = totalEpisodesWatched es ∧
    tvDuration (m :: es) = tvDuration es := by
  have hmk : isMovieKind m = true := by simp [isMovieKind, h]
  have htv : ¬ (m.mediaType = some MediaType.tv) := by simp [h]
  have he : tvEntries (m :: es) = tvEntries es := by
    rw [tvEntries, List.filter_cons_of_neg (by simpa using htv)]
    rfl
  refine ⟨?_, ?_, he, ?_, ?_, ?_⟩
  · rw [movieCount, movieCount, List.filter_cons_of_pos hmk, List.length_cons]
  · rw [movieDuration, movieDuration, List.filter_cons_of_pos hmk,
      List.map_cons, List.sum_cons]
  · rw [tvCount, tvCount, he]
  · rw [totalEpisodesWatched, totalEpisodesWatched, tvCalcMap, tvCalcMap, he]
  · rw [tvDuration, tvDuration, tvCalcMap, tvCalcMap, he]

/-- C10 witness: the legacy record next to a TV record. -/
theorem c10_absent_mediaType_counts_as_movie_witness :
    movieCount (exLegacy :: [exTv1]) = movieCount [exTv1] + 1 ∧
    movieDuration (exLegacy :: [exTv1]) = durOf exLegacy +
      movieDuration [exTv1] ∧
    tvEntries (exLegacy :: [exTv1]) = tvEntries [exTv1] ∧
    tvCount (exLegacy :: [exTv1]) = tvCount [exTv1] ∧
    totalEpisodesWatched (exLegacy :: [exTv1]) =
      totalEpisodesWatched [exTv1] ∧
    tvDuration (exLegacy :: [exTv1]) = tvDuration [exTv1] :=
  c10_absent_mediaType_counts_as_movie [exTv1] exLegacy rfl

end CineLog
